import Mathlib

/-
  Verification development for the polyv upload orchestration core.

  Shallow embedding of:
  - src/pool.js   : the bounded concurrent executor `Pool`
  - src/index.js  : the orchestrator `PlvVideoUpload`

  The repository's `queue.js`, `upload.js` and `utils.js` are not present in the
  sources; the `Queue` registry, the task (`UploadManager`) surface and the
  `generateFileData` / `isContainFileMimeType` helpers are modelled from the
  spec where noted, faithful to the spec's words. Everything else is translated
  directly from the JavaScript sources.

  JavaScript machine details made explicit in the model: asynchronous
  continuations (`then` / `catch` / `finally` bodies) are separate step
  functions, since all list mutation in the sources happens synchronously
  between suspension points; numeric status codes are `Int`; the falsy values
  relevant to the translated guards (`0`, absent) are modelled with `Option`.
-/

namespace Polyv

/-- Error payload carried by a rejected upload future (the `err` consumed by
`_onPromiseEnd`'s per-future catch and forwarded to `_emitError`). -/
structure ErrData where
  code : Int
deriving Repr, DecidableEq

/-- Result of a settled upload future, as consumed by `_handleUploadStatusChange`.
upload.js (the producer) is absent from the sources, so the result shape is
modelled from the spec: `status` is the status code of the settlement and
`res.json()` yields `{id, uploader}`; the task object `uploader` is represented
by its id into the orchestrator's shared task store. -/
structure Res where
  status : Int
  id : Nat
  uploader : Nat
deriving Repr, DecidableEq

/-- Observable events emitted by the orchestrator: `trigger('Error', e)`,
`trigger('UploadComplete')`, and the cooperative stop request `uploader._stop()`
(upload.js is absent, so a stop request is modelled as an observable event). -/
inductive Event
  | errorEvt (code : Int)
  | uploadComplete
  | stopRequested (id : Nat)
deriving Repr, DecidableEq

/-- The global mode of the orchestrator (`STATUS` in index.js). -/
inductive UploadStatus
  | notStarted
  | uploading
deriving Repr, DecidableEq

/-- Modelled from the spec: file metadata carried by a task. upload.js and
utils.js are absent; the spec and the index.js typedef list mutable fields such
as title, desc and tag, of which we keep a representative selection. -/
structure FileData where
  title : String
  desc : String
  tag : String
deriving Repr, DecidableEq

/-- Modelled from the spec: a partial update for `updateFileData`; absent
fields are left unchanged by the merge. -/
structure FilePatch where
  title : Option String
  desc : Option String
  tag : Option String
deriving Repr, DecidableEq

/-- Modelled from the spec: `Task.updateFileData(partial)` merges the partial
into the task's file data. -/
def mergePatch (p : FilePatch) (fd : FileData) : FileData :=
  { title := p.title.getD fd.title
    desc := p.desc.getD fd.desc
    tag := p.tag.getD fd.tag }

/-- Argument to `PlvVideoUpload.updateFileData`. The source guards on
`typeof fileData !== 'object'`; a JavaScript value either is an object (the
patch) or is not. -/
inductive UpdArg
  | obj (patch : FilePatch)
  | nonObject
deriving Repr, DecidableEq

/-- Outcome of `addFile`: the returned `UploadManager` handle (by id), or a
thrown error (`throw new Error(...)` / `throw new TypeError(...)`). -/
inductive AddFileOutcome
  | ok (uploaderId : Nat)
  | thrown
deriving Repr, DecidableEq

/-- State of the per-admission deferred created by `Pool.enqueue`'s
`new Promise((resolve, reject) => ...)`. A promise settles at most once. -/
inductive DeferredState
  | pending
  | resolvedD (r : Option Res)
  | rejectedD (e : ErrData)
deriving Repr, DecidableEq

/-- A pool item `{id, task, resolve, reject}` (pool.js `enqueue`). The task is
represented by its id; `token` identifies the item's deferred (each admission
cycle creates a fresh one, so distinct items carry distinct tokens). -/
structure PoolItem where
  token : Nat
  id : Nat
deriving Repr, DecidableEq

/-- State of a `Pool` (pool.js): the configured limit, the two lists, the
settlement state of every created deferred (by token), and the next fresh
token. -/
structure PoolState where
  limit : Nat
  waitingList : List PoolItem
  processingList : List PoolItem
  deferred : Nat → DeferredState
  nextToken : Nat

/-- JavaScript `list.slice(0, e)`: a negative end index counts from the end of
the list (`Int.toNat` clamps at zero exactly as slice does). -/
def jsSliceTo (l : List PoolItem) (e : Int) : List PoolItem :=
  l.take (if 0 ≤ e then e.toNat else ((l.length : Int) + e).toNat)

/-- Removes the first element whose `id` field matches, as pool.js
`_removeItem` does with its index scan and `splice`; the first component is the
removed element (`chosenItem`). -/
def extractById (id : Nat) : List PoolItem → Option PoolItem × List PoolItem
  | [] => (none, [])
  | it :: rest =>
    if it.id = id then (some it, rest)
    else ((extractById id rest).1, it :: (extractById id rest).2)

/-- Removal by id without reporting the removed element. -/
def removeFirstById (id : Nat) (l : List PoolItem) : List PoolItem :=
  (extractById id l).2

/-- One iteration of the `forEach` body in pool.js `_check`: remove the item
from the waiting list (by id), push it onto the processing list. The `_run`
call it then makes has no synchronous effect on the lists (its `then` /
`catch` / `finally` bodies run in later turns, modelled below). -/
def admitStep (st : PoolState) (it : PoolItem) : PoolState :=
  { st with
    waitingList := removeFirstById it.id st.waitingList
    processingList := st.processingList ++ [it] }

/-- Pool admission check (`_check`): `availableNum = limit - processingList.length`,
then each element of `waitingList.slice(0, availableNum)` is moved into the
processing list and run. -/
def PoolState.check (s : PoolState) : PoolState :=
  List.foldl admitStep s
    (jsSliceTo s.waitingList ((s.limit : Int) - (s.processingList.length : Int)))

/-- Pool `enqueue(task)`: append a fresh item (with a fresh deferred) to the
waiting list and trigger the admission check; returns the deferred's token
(the promise handed back to the caller). -/
def PoolState.enqueue (s : PoolState) (taskId : Nat) : PoolState × Nat :=
  let it : PoolItem := { token := s.nextToken, id := taskId }
  (PoolState.check
      { s with waitingList := s.waitingList ++ [it], nextToken := s.nextToken + 1 },
    s.nextToken)

/-- Pool `_waitingListRemove(id)`: remove from the waiting list; no admission
check is triggered for the waiting list. -/
def PoolState.waitingListRemove (s : PoolState) (id : Nat) :
    PoolState × Option PoolItem :=
  match extractById id s.waitingList with
  | (none, _) => (s, none)
  | (some it, rest) => ({ s with waitingList := rest }, some it)

/-- Pool `_processingListRemove(id)`: remove from the processing list; when an
element was removed the admission check is re-triggered. -/
def PoolState.processingListRemove (s : PoolState) (id : Nat) :
    PoolState × Option PoolItem :=
  match extractById id s.processingList with
  | (none, _) => (s, none)
  | (some it, rest) => (PoolState.check { s with processingList := rest }, some it)

/-- Pool `remove(id)`: search the processing list first, then the waiting
list. -/
def PoolState.remove (s : PoolState) (id : Nat) : PoolState × Option PoolItem :=
  match s.processingListRemove id with
  | (s2, some it) => (s2, some it)
  | (_, none) => s.waitingListRemove id

/-- Pool `dequeue()`: shift from the processing list if non-empty, else from
the waiting list; fails (a JavaScript TypeError on `undefined.task`) when both
are empty. -/
def PoolState.dequeue (s : PoolState) : Option (PoolState × PoolItem) :=
  match s.processingList with
  | it :: rest => some ({ s with processingList := rest }, it)
  | [] =>
    match s.waitingList with
    | it :: rest => some ({ s with waitingList := rest }, it)
    | [] => none

/-- Settle a deferred: a promise settles at most once, so an already settled
deferred is unchanged. -/
def PoolState.settle (s : PoolState) (tok : Nat) (d : DeferredState) : PoolState :=
  { s with
    deferred := fun t =>
      if t = tok then
        match s.deferred t with
        | DeferredState.pending => d
        | old => old
      else s.deferred t }

/-- Pool `_run` success continuation: `then` removes the item from the
processing list (which itself re-triggers the check) and resolves the
deferred; `finally` re-triggers the admission check. -/
def PoolState.runSuccess (s : PoolState) (it : PoolItem) (r : Option Res) : PoolState :=
  PoolState.check
    (PoolState.settle (s.processingListRemove it.id).1 it.token (DeferredState.resolvedD r))

/-- Pool `_run` failure continuation: `catch` rejects the deferred without
touching the processing list; `finally` re-triggers the admission check. -/
def PoolState.runFailure (s : PoolState) (it : PoolItem) (e : ErrData) : PoolState :=
  PoolState.check (PoolState.settle s it.token (DeferredState.rejectedD e))

/-- Pool `size`: the sum of both list lengths. -/
def PoolState.size (s : PoolState) : Nat :=
  s.waitingList.length + s.processingList.length

/-- A freshly constructed pool (`new Pool(runTask, limit)`). -/
def PoolState.initial (lim : Nat) : PoolState :=
  { limit := lim
    waitingList := []
    processingList := []
    deferred := fun _ => DeferredState.pending
    nextToken := 0 }

/-- Removes the first occurrence of an id from an id list, reporting the
removed element. -/
def removeIdNat (id : Nat) : List Nat → Option Nat × List Nat
  | [] => (none, [])
  | x :: r =>
    if x = id then (some x, r)
    else ((removeIdNat id r).1, x :: (removeIdNat id r).2)

/-- Modelled from the spec: queue.js is absent from the sources. §4.1: an
ordered, id-addressable registry. Items are tracked by id (tasks live in the
orchestrator's shared store). -/
structure Queue where
  list : List Nat
deriving Repr, DecidableEq

/-- Modelled from the spec: `enqueue(item)` appends. -/
def Queue.enqueue (q : Queue) (x : Nat) : Queue :=
  ⟨q.list ++ [x]⟩

/-- Modelled from the spec: `find(id)` is a non-mutating linear scan returning
none if absent. -/
def Queue.find (q : Queue) (id : Nat) : Option Nat :=
  q.list.find? (fun y => y = id)

/-- Modelled from the spec: `remove(id)` is a linear scan plus splice,
returning the removed item or none. -/
def Queue.remove (q : Queue) (id : Nat) : Queue × Option Nat :=
  (⟨(removeIdNat id q.list).2⟩, (removeIdNat id q.list).1)

/-- Modelled from the spec: `dequeue()` removes and returns the front item,
failing on empty. -/
def Queue.dequeue (q : Queue) : Option (Queue × Nat) :=
  match q.list with
  | [] => none
  | x :: r => some (⟨r⟩, x)

/-- Modelled from the spec: `unshift(item)` prepends (used for priority
retry). -/
def Queue.unshift (q : Queue) (x : Nat) : Queue :=
  ⟨x :: q.list⟩

/-- Modelled from the spec: `clear()` empties the queue. -/
def Queue.clear : Queue :=
  ⟨[]⟩

/-- Modelled from the spec: the number of tracked items. -/
def Queue.size (q : Queue) : Nat :=
  q.list.length

/-- Pointwise store update (JavaScript field assignment on a shared object:
every holder of the store observes the change). -/
def updMap {β : Type} (f : Nat → β) (a : Nat) (b : β) : Nat → β :=
  fun x => if x = a then b else f x

/-- Orchestrator state (`PlvVideoUpload`): the two queues, the upload pool,
the shared task store (upload.js is absent, so a task's mutable surface —
`statusCode`, `isDeleted`, its file data — is modelled from the spec as maps
keyed by the task id), the global mode and the buffer of not-yet-awaited
completion futures (by deferred token). -/
structure OrchState where
  fileQueue : Queue
  waitQueue : Queue
  uploadPool : PoolState
  isDeleted : Nat → Bool
  statusCode : Nat → Int
  fileDataMap : Nat → FileData
  status : UploadStatus
  newUploadPromiseList : List Nat

/-- Input to `addFile` after the absent utils.js helpers ran, modelled from the
spec: `generateFileData` produces file data with a fingerprint id, and
`isContainFileMimeType` is a type-acceptance predicate evaluated on the file. -/
structure NewFile where
  id : Nat
  mimeOk : Bool
  fileData : FileData
deriving Repr, DecidableEq

/-- Orchestrator `addFile` (index.js): signal code 110 and throw on a
duplicate fingerprint; signal code 111 and throw on an unacceptable type;
otherwise register the file, create the uploader (statusCode 1, the
not-yet-started marker, modelled from the spec since upload.js is absent) and
either park it in `waitQueue` (mode NOT_STARTED) or submit it to the pool and
track the future. -/
def OrchState.addFile (s : OrchState) (f : NewFile) :
    OrchState × List Event × AddFileOutcome :=
  if (s.fileQueue.find f.id).isSome then
    (s, [Event.errorEvt 110], AddFileOutcome.thrown)
  else if !f.mimeOk then
    (s, [Event.errorEvt 111], AddFileOutcome.thrown)
  else
    let s1 : OrchState :=
      { s with
        fileQueue := s.fileQueue.enqueue f.id
        isDeleted := updMap s.isDeleted f.id false
        statusCode := updMap s.statusCode f.id 1
        fileDataMap := updMap s.fileDataMap f.id f.fileData }
    if s1.status = UploadStatus.notStarted then
      ({ s1 with waitQueue := s1.waitQueue.enqueue f.id }, [], AddFileOutcome.ok f.id)
    else
      let pr := s1.uploadPool.enqueue f.id
      ({ s1 with
          uploadPool := pr.1
          newUploadPromiseList := s1.newUploadPromiseList ++ [pr.2] },
        [], AddFileOutcome.ok f.id)

/-- Orchestrator `removeFile` (index.js): if the pool held the task, mark it
deleted and request its cooperative stop; otherwise remove it from `waitQueue`.
Always also remove it from `fileQueue`. -/
def OrchState.removeFile (s : OrchState) (id : Nat) : OrchState × List Event :=
  match s.uploadPool.remove id with
  | (p2, some _) =>
    ({ s with
        uploadPool := p2
        isDeleted := updMap s.isDeleted id true
        fileQueue := (s.fileQueue.remove id).1 },
      [Event.stopRequested id])
  | (_, none) =>
    ({ s with
        waitQueue := (s.waitQueue.remove id).1
        fileQueue := (s.fileQueue.remove id).1 },
      [])

/-- Orchestrator `updateFileData` (index.js): a non-object argument returns
silently; otherwise the task must be in `waitQueue` with statusCode 1, else
code 112 is signalled and nothing is mutated. -/
def OrchState.updateFileData (s : OrchState) (uploaderid : Nat) (fileData : UpdArg) :
    OrchState × List Event :=
  match fileData with
  | UpdArg.nonObject => (s, [])
  | UpdArg.obj patch =>
    if (s.waitQueue.find uploaderid).isNone ∨ s.statusCode uploaderid ≠ 1 then
      (s, [Event.errorEvt 112])
    else
      ({ s with
          fileDataMap :=
            updMap s.fileDataMap uploaderid
              (mergePatch patch (s.fileDataMap uploaderid)) },
        [])

/-- Orchestrator `_handleUploadStatusChange` (index.js). 100: remove from
`waitQueue`. 102: unshift the uploader onto `waitQueue` and emit the result as
an Error event. 101/104/105: unshift onto `waitQueue` only when not deleted.
106/107: resubmit into the pool, track the future, and when the mode is
NOT_STARTED restart the aggregation watch (whose synchronous effect drains the
future buffer into the new snapshot). Other codes: no-op. -/
def OrchState.handleUploadStatusChange (s : OrchState) (res : Res) :
    OrchState × List Event :=
  if res.status = 100 then
    ({ s with waitQueue := (s.waitQueue.remove res.id).1 }, [])
  else if res.status = 102 then
    ({ s with waitQueue := s.waitQueue.unshift res.uploader },
      [Event.errorEvt res.status])
  else if res.status = 101 ∨ res.status = 104 ∨ res.status = 105 then
    if !s.isDeleted res.uploader then
      ({ s with waitQueue := s.waitQueue.unshift res.uploader }, [])
    else (s, [])
  else if res.status = 106 ∨ res.status = 107 then
    let pr := s.uploadPool.enqueue res.uploader
    let s2 : OrchState :=
      { s with
        uploadPool := pr.1
        newUploadPromiseList := s.newUploadPromiseList ++ [pr.2] }
    if s2.status = UploadStatus.notStarted then
      ({ s2 with newUploadPromiseList := [] }, [])
    else (s2, [])
  else (s, [])

/-- Outcome of one upload future: fulfilled with a (possibly absent) result,
or rejected with an error. -/
inductive Outcome
  | fulfilled (res : Option Res)
  | rejected (err : ErrData)
deriving Repr, DecidableEq

/-- Whether an outcome is a fulfillment. -/
def Outcome.isFulfilled : Outcome → Bool
  | Outcome.fulfilled _ => true
  | Outcome.rejected _ => false

/-- The aggregate consumer in `_onPromiseEnd` is
`Promise.all(uploadPromiseList).then(continuation)` with no rejection handler:
the continuation runs exactly when every future in the snapshot fulfills. -/
def aggregateRuns (outs : List Outcome) : Bool :=
  outs.all Outcome.isFulfilled

/-- The per-future consumer in `_onPromiseEnd`: each snapshotted future gets
its own `then` (guarded by `!res || !res.status`, i.e. an absent result or a
zero status is ignored) feeding the status dispatch, and its own `catch`
feeding `_emitError`. -/
def OrchState.perFutureHandle (s : OrchState) (o : Outcome) : OrchState × List Event :=
  match o with
  | Outcome.fulfilled none => (s, [])
  | Outcome.fulfilled (some r) =>
    if r.status = 0 then (s, []) else s.handleUploadStatusChange r
  | Outcome.rejected e => (s, [Event.errorEvt e.code])

/-- The body of the `Promise.all(...).then(...)` continuation in
`_onPromiseEnd`: if new futures arrived, repeat the drain (the returned flag);
else if the pool is empty, reset the mode to NOT_STARTED, and additionally fire
UploadComplete when `waitQueue` is empty while `fileQueue` is not. -/
def OrchState.promiseAllThen (s : OrchState) : OrchState × List Event × Bool :=
  if s.newUploadPromiseList.length > 0 then
    (s, [], true)
  else if s.uploadPool.size = 0 then
    let s2 : OrchState := { s with status := UploadStatus.notStarted }
    if s2.waitQueue.size = 0 ∧ s2.fileQueue.size ≠ 0 then
      (s2, [Event.uploadComplete], false)
    else (s2, [], false)
  else (s, [], false)

/-- The effective concurrency limit computed by the `PlvVideoUpload`
constructor: `config.parallelFileLimit || 5` (absent and 0 are falsy), then
values below 0 or above 5 are reset to 5. Configuration numbers are modelled
as rationals, so fractional inputs are representable. -/
def effectiveParallelFileLimit (v : Option ℚ) : ℚ :=
  let p : ℚ :=
    match v with
    | none => 5
    | some x => if x = 0 then 5 else x
  if p < 0 ∨ p > 5 then 5 else p

/-- Sample file data for concrete states. -/
def fd0 : FileData :=
  { title := "a", desc := "", tag := "" }

/-- Concrete orchestrator state builder for the closed instances below. -/
def mkOrch (fq wq : List Nat) (pool : PoolState) (del : Nat → Bool)
    (sc : Nat → Int) (st : UploadStatus) (npl : List Nat) : OrchState :=
  { fileQueue := ⟨fq⟩
    waitQueue := ⟨wq⟩
    uploadPool := pool
    isDeleted := del
    statusCode := sc
    fileDataMap := fun _ => fd0
    status := st
    newUploadPromiseList := npl }

/-- A quiescent orchestrator state: nothing tracked, mode NOT_STARTED. -/
def plvIdle : OrchState :=
  mkOrch [] [] (PoolState.initial 5) (fun _ => false) (fun _ => 1)
    UploadStatus.notStarted []

/-- An orchestrator state in UPLOADING mode whose task 7 has been marked
deleted (as `removeFile` / `clearAll` do) while its settlement is still
outstanding. -/
def plvDeleted7 : OrchState :=
  mkOrch [] [] (PoolState.initial 5) (fun i => decide (i = 7)) (fun _ => 1)
    UploadStatus.uploading []

/-- An orchestrator state with task 5 tracked in `fileQueue` and parked in
`waitQueue`, mode NOT_STARTED. -/
def plvWait5 : OrchState :=
  mkOrch [5] [5] (PoolState.initial 5) (fun _ => false) (fun _ => 1)
    UploadStatus.notStarted []

/-- An orchestrator state whose batch has fully drained: empty pool, empty
wait queue, one tracked file, no pending futures. -/
def plvDone : OrchState :=
  mkOrch [5] [] (PoolState.initial 5) (fun _ => false) (fun _ => 100)
    UploadStatus.uploading []

/-- A concrete rejection error. -/
def err500 : ErrData :=
  { code := 500 }

/-- A pool state with one admitted task (id 10, token 0) under limit 1. -/
def poolOne : PoolState :=
  ((PoolState.initial 1).enqueue 10).1

/-- An orchestrator state whose pool is running task 7 (UPLOADING mode). -/
def plvRunning7 : OrchState :=
  mkOrch [7] [] ((PoolState.initial 1).enqueue 7).1 (fun _ => false) (fun _ => 2)
    UploadStatus.uploading []

/-! Pool lemmas: behaviour of `extractById` and the admission check, the pool
invariant and its preservation along every pool operation. -/

theorem extractById_sublist (id : Nat) (l : List PoolItem) :
    (extractById id l).2.Sublist l := by
  induction l with
  | nil => simp [extractById]
  | cons a t ih =>
    by_cases h : a.id = id
    · simp only [extractById, h, if_pos]
      exact List.sublist_cons_self a t
    · simpa [extractById, h] using ih.cons₂ a

theorem extractById_found_length {id : Nat} {l : List PoolItem} {it : PoolItem}
    (h : (extractById id l).1 = some it) :
    (extractById id l).2.length + 1 = l.length := by
  induction l with
  | nil => simp [extractById] at h
  | cons a t ih =>
    by_cases ha : a.id = id
    · simp [extractById, ha]
    · simp only [extractById, ha, if_false] at h ⊢
      simp [ih h]

theorem extractById_of_mem {l : List PoolItem} {it : PoolItem}
    (hmem : it ∈ l) (hnd : (l.map PoolItem.id).Nodup) :
    (extractById it.id l).1 = some it ∧
      ∀ x ∈ (extractById it.id l).2, x.id ≠ it.id := by
  induction l with
  | nil => cases hmem
  | cons a t ih =>
    simp only [List.map_cons, List.nodup_cons] at hnd
    by_cases ha : a.id = it.id
    · have haeq : a = it := by
        rcases List.mem_cons.mp hmem with h | h
        · exact h.symm
        · exact absurd (ha ▸ List.mem_map_of_mem PoolItem.id h) hnd.1
      refine ⟨by simp [extractById, ha, haeq], ?_⟩
      intro x hx hxid
      exact hnd.1 (ha ▸ hxid ▸ List.mem_map_of_mem PoolItem.id (by simpa [extractById, ha, haeq] using hx))
    · have hmem' : it ∈ t := by
        rcases List.mem_cons.mp hmem with h | h
        · exact absurd (h ▸ rfl) ha
        · exact h
      obtain ⟨h1, h2⟩ := ih hmem' hnd.2
      refine ⟨by simpa [extractById, ha] using h1, ?_⟩
      intro x hx
      rcases List.mem_cons.mp (by simpa [extractById, ha] using hx) with h | h
      · exact h ▸ ha
      · exact h2 x h

theorem foldl_admitStep (pre : List PoolItem) :
    ∀ (rest proc : List PoolItem) (lim tok : Nat) (df : Nat → DeferredState),
    List.foldl admitStep
      { limit := lim, waitingList := pre ++ rest, processingList := proc,
        deferred := df, nextToken := tok } pre =
      { limit := lim, waitingList := rest, processingList := proc ++ pre,
        deferred := df, nextToken := tok } := by
  induction pre with
  | nil => intro rest proc lim tok df; simp
  | cons a pre' ih =>
    intro rest proc lim tok df
    have hstep :
        admitStep
          { limit := lim, waitingList := a :: (pre' ++ rest), processingList := proc,
            deferred := df, nextToken := tok } a =
          { limit := lim, waitingList := pre' ++ rest, processingList := proc ++ [a],
            deferred := df, nextToken := tok } := by
      simp [admitStep, removeFirstById, extractById]
    simp only [List.cons_append, List.foldl_cons, hstep, ih rest (proc ++ [a]) lim tok df,
      List.append_assoc, List.singleton_append, List.nil_append]

theorem check_eq (s : PoolState) (h : s.processingList.length ≤ s.limit) :
    s.check =
      { s with
        waitingList := s.waitingList.drop (s.limit - s.processingList.length)
        processingList :=
          s.processingList ++ s.waitingList.take (s.limit - s.processingList.length) } := by
  obtain ⟨lim, w, p, df, tok⟩ := s
  simp only at h
  have h0 : (0 : Int) ≤ (lim : Int) - (p.length : Int) := by omega
  have h1 : ((lim : Int) - (p.length : Int)).toNat = lim - p.length := by omega
  show List.foldl admitStep _ (jsSliceTo w ((lim : Int) - (p.length : Int))) = _
  rw [jsSliceTo, if_pos h0, h1]
  have hw : w = w.take (lim - p.length) ++ w.drop (lim - p.length) :=
    (List.take_append_drop _ w).symm
  calc List.foldl admitStep
        { limit := lim, waitingList := w, processingList := p,
          deferred := df, nextToken := tok } (w.take (lim - p.length))
      = List.foldl admitStep
          { limit := lim,
            waitingList := w.take (lim - p.length) ++ w.drop (lim - p.length),
            processingList := p, deferred := df, nextToken := tok }
          (w.take (lim - p.length)) := by rw [← hw]
    _ = { limit := lim, waitingList := w.drop (lim - p.length),
          processingList := p ++ w.take (lim - p.length),
          deferred := df, nextToken := tok } :=
        foldl_admitStep (w.take (lim - p.length)) (w.drop (lim - p.length)) p lim tok df

/-- All item tokens tracked by the pool, waiting list first. -/
def poolTokens (s : PoolState) : List Nat :=
  (s.waitingList ++ s.processingList).map PoolItem.token

/-- The pool invariant: the processing list stays within the limit, every item
occurs in at most one place (tokens are distinct), and all tokens are below
the fresh-token counter. -/
def PoolInv (s : PoolState) : Prop :=
  s.processingList.length ≤ s.limit ∧ (poolTokens s).Nodup ∧
    ∀ t ∈ poolTokens s, t < s.nextToken

theorem check_perm (s : PoolState) (h : s.processingList.length ≤ s.limit) :
    (s.check.waitingList ++ s.check.processingList).Perm
      (s.waitingList ++ s.processingList) := by
  rw [check_eq s h]
  refine List.Perm.trans (List.Perm.append_left _ List.perm_append_comm) ?_
  rw [← List.append_assoc]
  refine List.Perm.trans (List.Perm.append_right _ List.perm_append_comm) ?_
  rw [List.take_append_drop]

theorem inv_check {s : PoolState} (h : PoolInv s) : PoolInv s.check := by
  obtain ⟨h1, h2, h3⟩ := h
  have hperm := (check_perm s h1).map PoolItem.token
  refine ⟨?_, hperm.nodup_iff.mpr h2, ?_⟩
  · rw [check_eq s h1]
    simp only [List.length_append, List.length_take]
    omega
  · intro t ht
    have hnx : s.check.nextToken = s.nextToken := by rw [check_eq s h1]
    rw [hnx]
    exact h3 t (hperm.mem_iff.mp ht)

theorem inv_wait_sublist {s : PoolState} (h : PoolInv s) {l : List PoolItem}
    (hl : l.Sublist s.waitingList) : PoolInv { s with waitingList := l } := by
  obtain ⟨h1, h2, h3⟩ := h
  have hsub : ((l ++ s.processingList).map PoolItem.token).Sublist (poolTokens s) :=
    (hl.append_right s.processingList).map PoolItem.token
  exact ⟨h1, h2.sublist hsub, fun t ht => h3 t (hsub.subset ht)⟩

theorem inv_proc_sublist {s : PoolState} (h : PoolInv s) {l : List PoolItem}
    (hl : l.Sublist s.processingList) : PoolInv { s with processingList := l } := by
  obtain ⟨h1, h2, h3⟩ := h
  have hsub : ((s.waitingList ++ l).map PoolItem.token).Sublist (poolTokens s) :=
    (hl.append_left s.waitingList).map PoolItem.token
  exact ⟨le_trans hl.length_le h1, h2.sublist hsub, fun t ht => h3 t (hsub.subset ht)⟩

theorem inv_settle {s : PoolState} (h : PoolInv s) (tok : Nat) (d : DeferredState) :
    PoolInv (s.settle tok d) :=
  h

theorem inv_processingListRemove {s : PoolState} (h : PoolInv s) (id : Nat) :
    PoolInv (s.processingListRemove id).1 := by
  unfold PoolState.processingListRemove
  rcases hE : extractById id s.processingList with ⟨found, rest⟩
  cases found with
  | none => exact h
  | some it =>
    have hrest : rest.Sublist s.processingList := by
      have := extractById_sublist id s.processingList
      rw [hE] at this; exact this
    exact inv_check (inv_proc_sublist h hrest)

theorem inv_waitingListRemove {s : PoolState} (h : PoolInv s) (id : Nat) :
    PoolInv (s.waitingListRemove id).1 := by
  unfold PoolState.waitingListRemove
  rcases hE : extractById id s.waitingList with ⟨found, rest⟩
  cases found with
  | none => exact h
  | some it =>
    have hrest : rest.Sublist s.waitingList := by
      have := extractById_sublist id s.waitingList
      rw [hE] at this; exact this
    exact inv_wait_sublist h hrest

theorem inv_remove {s : PoolState} (h : PoolInv s) (id : Nat) :
    PoolInv (s.remove id).1 := by
  unfold PoolState.remove
  rcases hE : s.processingListRemove id with ⟨s2, found⟩
  cases found with
  | none => exact inv_waitingListRemove h id
  | some it =>
    have := inv_processingListRemove h id
    rw [hE] at this; exact this

theorem inv_enqueue {s : PoolState} (h : PoolInv s) (taskId : Nat) :
    PoolInv (s.enqueue taskId).1 := by
  obtain ⟨h1, h2, h3⟩ := h
  apply inv_check
  have hmap :
      poolTokens
        { s with
          waitingList := s.waitingList ++ [{ token := s.nextToken, id := taskId }]
          nextToken := s.nextToken + 1 } =
      s.waitingList.map PoolItem.token ++
        s.nextToken :: s.processingList.map PoolItem.token := by
    simp [poolTokens]
  refine ⟨h1, ?_, ?_⟩
  · rw [hmap, List.nodup_middle, ← List.map_append, List.nodup_cons]
    exact ⟨fun hc => absurd rfl (Nat.ne_of_lt (h3 _ hc)), h2⟩
  · intro t ht
    rw [hmap] at ht
    show t < s.nextToken + 1
    rcases List.mem_append.mp ht with hw | hp
    · have hts : t ∈ poolTokens s := by
        rw [poolTokens, List.map_append]
        exact List.mem_append.mpr (Or.inl hw)
      exact Nat.lt_succ_of_lt (h3 t hts)
    · rcases List.mem_cons.mp hp with rfl | hp
      · exact Nat.lt_succ_self _
      · have hts : t ∈ poolTokens s := by
          rw [poolTokens, List.map_append]
          exact List.mem_append.mpr (Or.inr hp)
        exact Nat.lt_succ_of_lt (h3 t hts)

theorem inv_runSuccess {s : PoolState} (h : PoolInv s) (it : PoolItem) (r : Option Res) :
    PoolInv (s.runSuccess it r) :=
  inv_check (inv_settle (inv_processingListRemove h it.id) _ _)

theorem inv_runFailure {s : PoolState} (h : PoolInv s) (it : PoolItem) (e : ErrData) :
    PoolInv (s.runFailure it e) :=
  inv_check (inv_settle h _ _)

theorem inv_initial (lim : Nat) : PoolInv (PoolState.initial lim) := by
  refine ⟨by simp [PoolState.initial], by simp [poolTokens, PoolState.initial], ?_⟩
  intro t ht
  simp [poolTokens, PoolState.initial] at ht

/-- States of a pool produced by a sequence of pool operations from a fresh
pool: enqueues, removals, dequeues, and run completions (the asynchronous
success and failure continuations of `_run`). -/
inductive PoolReachable : PoolState → Prop
  | init (lim : Nat) : PoolReachable (PoolState.initial lim)
  | enqueue {s : PoolState} (taskId : Nat) :
      PoolReachable s → PoolReachable (s.enqueue taskId).1
  | removeOp {s : PoolState} (id : Nat) :
      PoolReachable s → PoolReachable (s.remove id).1
  | dequeueOp {s s2 : PoolState} {it : PoolItem} :
      PoolReachable s → s.dequeue = some (s2, it) → PoolReachable s2
  | runSucc {s : PoolState} (it : PoolItem) (r : Option Res) :
      PoolReachable s → PoolReachable (s.runSuccess it r)
  | runFail {s : PoolState} (it : PoolItem) (e : ErrData) :
      PoolReachable s → PoolReachable (s.runFailure it e)

theorem inv_dequeue {s s2 : PoolState} {it : PoolItem} (h : PoolInv s)
    (hd : s.dequeue = some (s2, it)) : PoolInv s2 := by
  unfold PoolState.dequeue at hd
  rcases hp : s.processingList with _ | ⟨a, rest⟩
  · rw [hp] at hd
    rcases hw : s.waitingList with _ | ⟨b, wrest⟩
    · rw [hw] at hd; cases hd
    · rw [hw] at hd
      simp only [Option.some.injEq, Prod.mk.injEq] at hd
      obtain ⟨hs2, -⟩ := hd
      subst hs2
      rw [← hp]
      refine inv_wait_sublist h ?_
      rw [hw]
      exact List.sublist_cons_self b wrest
  · rw [hp] at hd
    simp only [Option.some.injEq, Prod.mk.injEq] at hd
    obtain ⟨hs2, -⟩ := hd
    subst hs2
    refine inv_proc_sublist h ?_
    rw [hp]
    exact List.sublist_cons_self a rest

theorem reachable_inv {s : PoolState} (h : PoolReachable s) : PoolInv s := by
  induction h with
  | init lim => exact inv_initial lim
  | enqueue taskId _ ih => exact inv_enqueue ih taskId
  | removeOp id _ ih => exact inv_remove ih id
  | dequeueOp _ hd ih => exact inv_dequeue ih hd
  | runSucc it r _ ih => exact inv_runSuccess ih it r
  | runFail it e _ ih => exact inv_runFailure ih it e

theorem not_mem_wait_of_mem_proc {s : PoolState} (h2 : (poolTokens s).Nodup)
    {it : PoolItem} (hin : it ∈ s.processingList) : it ∉ s.waitingList := by
  intro hw
  rw [poolTokens, List.map_append, List.nodup_append] at h2
  exact h2.2.2 (List.mem_map_of_mem PoolItem.token hw)
    (List.mem_map_of_mem PoolItem.token hin)

theorem check_deferred (s : PoolState) : s.check.deferred = s.deferred := by
  unfold PoolState.check
  generalize jsSliceTo s.waitingList ((s.limit : Int) - (s.processingList.length : Int)) = l
  induction l generalizing s with
  | nil => rfl
  | cons a t ih => simp only [List.foldl_cons]; rw [ih]; rfl

theorem processingListRemove_found {s : PoolState} {it : PoolItem}
    (hin : it ∈ s.processingList)
    (hids : (s.processingList.map PoolItem.id).Nodup) :
    s.processingListRemove it.id =
      (PoolState.check
          { s with processingList := (extractById it.id s.processingList).2 },
        some it) := by
  have h1 := (extractById_of_mem hin hids).1
  unfold PoolState.processingListRemove
  rcases hE : extractById it.id s.processingList with ⟨found, rest⟩
  rw [hE] at h1
  simp only at h1
  subst h1
  simp

/-- C3: along every sequence of pool operations, the processing list stays
within the configured limit, no item sits in both lists at once, and the
admission check moves exactly the leading elements of the waiting list, in
order, into the processing list. -/
theorem C3_pool_admission_invariants (s : PoolState) (h : PoolReachable s) :
    s.processingList.length ≤ s.limit ∧
    (∀ it, it ∈ s.waitingList → it ∉ s.processingList) ∧
    s.check.waitingList =
      s.waitingList.drop (s.limit - s.processingList.length) ∧
    s.check.processingList =
      s.processingList ++
        s.waitingList.take (s.limit - s.processingList.length) := by
  obtain ⟨h1, h2, h3⟩ := reachable_inv h
  refine ⟨h1, ?_, ?_, ?_⟩
  · intro it hw hps
    exact not_mem_wait_of_mem_proc h2 hps hw
  · rw [check_eq s h1]
  · rw [check_eq s h1]

/-- C3 at a concrete reachable pool: limit 1, one enqueued task; the admitted
item fills the slot and the bound holds. -/
theorem C3_pool_admission_invariants_witness :
    poolOne.processingList.length ≤ poolOne.limit ∧
    poolOne.check.processingList =
      poolOne.processingList ++
        poolOne.waitingList.take (poolOne.limit - poolOne.processingList.length) := by
  have h := C3_pool_admission_invariants poolOne
    (PoolReachable.enqueue 10 (PoolReachable.init 1))
  exact ⟨h.1, h.2.2.2⟩

/-- C4: the run contract of the pool. For an admitted item with a pending
deferred (ids in the processing list are the tasks' unique identifiers, hence
distinct): a successful run resolves the deferred with the produced value and
removes the item from the processing list; a failed run rejects the deferred
and leaves the item occupying its processing slot; in either case the
admission check runs afterward, so a waiting item is admitted whenever
capacity allows. -/
theorem C4_pool_run_contract (s : PoolState) (h : PoolReachable s) (it : PoolItem)
    (hin : it ∈ s.processingList)
    (hids : (s.processingList.map PoolItem.id).Nodup)
    (hp : s.deferred it.token = DeferredState.pending)
    (r : Option Res) (e : ErrData) :
    (s.runSuccess it r).deferred it.token = DeferredState.resolvedD r ∧
    it ∉ (s.runSuccess it r).processingList ∧
    (∀ w rest2, s.waitingList = w :: rest2 →
      w ∈ (s.runSuccess it r).processingList) ∧
    (s.runFailure it e).deferred it.token = DeferredState.rejectedD e ∧
    it ∈ (s.runFailure it e).processingList ∧
    (∀ w rest2, s.waitingList = w :: rest2 → s.processingList.length < s.limit →
      w ∈ (s.runFailure it e).processingList) := by
  obtain ⟨h1, h2, h3⟩ := reachable_inv h
  have hfound := (extractById_of_mem hin hids).1
  have hrid := (extractById_of_mem hin hids).2
  have hrsub := extractById_sublist it.id s.processingList
  have hrlen := extractById_found_length hfound
  have hplr := processingListRemove_found hin hids
  have hnotw : it ∉ s.waitingList := not_mem_wait_of_mem_proc h2 hin
  -- the success path
  have hsucc : s.runSuccess it r =
      PoolState.check
        (PoolState.settle
          (PoolState.check
            { s with processingList := (extractById it.id s.processingList).2 })
          it.token (DeferredState.resolvedD r)) := by
    unfold PoolState.runSuccess
    rw [hplr]
  have hAlen : (extractById it.id s.processingList).2.length ≤ s.limit :=
    le_trans hrsub.length_le h1
  have hBeq := check_eq { s with
      processingList := (extractById it.id s.processingList).2 } hAlen
  -- fields of the intermediate states of the success path
  have hdefB :
      (PoolState.check
        { s with processingList := (extractById it.id s.processingList).2 }).deferred
        = s.deferred :=
    check_deferred _
  have hClen :
      (PoolState.settle
        (PoolState.check
          { s with processingList := (extractById it.id s.processingList).2 })
        it.token (DeferredState.resolvedD r)).processingList.length ≤
      (PoolState.settle
        (PoolState.check
          { s with processingList := (extractById it.id s.processingList).2 })
        it.token (DeferredState.resolvedD r)).limit := by
    show (PoolState.check
        { s with processingList := (extractById it.id s.processingList).2 }).processingList.length ≤
      (PoolState.check
        { s with processingList := (extractById it.id s.processingList).2 }).limit
    rw [hBeq]
    simp only [List.length_append, List.length_take]
    omega
  have hCeq := check_eq _ hClen
  refine ⟨?_, ?_, ?_, ?_, ?_, ?_⟩
  · -- success resolves the deferred
    rw [hsucc, check_deferred, PoolState.settle]
    simp only [if_pos rfl]
    rw [hdefB, hp]
    simp
  · -- success removes the item from the processing list
    rw [hsucc, hCeq]
    show it ∉ (PoolState.settle _ it.token (DeferredState.resolvedD r)).processingList ++ _
    intro hmem
    rcases List.mem_append.mp hmem with hmem | hmem
    · rw [show (PoolState.settle
          (PoolState.check
            { s with processingList := (extractById it.id s.processingList).2 })
          it.token (DeferredState.resolvedD r)).processingList =
          (PoolState.check
            { s with processingList := (extractById it.id s.processingList).2 }).processingList
          from rfl, hBeq] at hmem
      rcases List.mem_append.mp hmem with hmem | hmem
      · exact hrid it hmem rfl
      · exact hnotw (List.take_subset _ _ hmem)
    · have : it ∈ (PoolState.settle
          (PoolState.check
            { s with processingList := (extractById it.id s.processingList).2 })
          it.token (DeferredState.resolvedD r)).waitingList :=
        List.take_subset _ _ hmem
      rw [show (PoolState.settle
          (PoolState.check
            { s with processingList := (extractById it.id s.processingList).2 })
          it.token (DeferredState.resolvedD r)).waitingList =
          (PoolState.check
            { s with processingList := (extractById it.id s.processingList).2 }).waitingList
          from rfl, hBeq] at this
      exact hnotw (List.drop_subset _ _ this)
  · -- success frees a slot, so the waiting head is admitted
    intro w rest2 hw
    rw [hsucc, hCeq]
    refine List.mem_append.mpr (Or.inl ?_)
    show w ∈ (PoolState.check
        { s with processingList := (extractById it.id s.processingList).2 }).processingList
    rw [hBeq]
    refine List.mem_append.mpr (Or.inr ?_)
    have hk1 : 1 ≤ s.limit - (extractById it.id s.processingList).2.length := by
      have hplen : 1 ≤ s.processingList.length := by
        cases hpl : s.processingList with
        | nil => rw [hpl] at hin; cases hin
        | cons x xs => simp [hpl]
      omega
    rw [hw]
    rcases Nat.exists_eq_add_of_le hk1 with ⟨m, hm⟩
    rw [show s.limit - (extractById it.id s.processingList).2.length = m + 1 by omega]
    exact List.mem_cons_self w _
  · -- failure rejects the deferred
    unfold PoolState.runFailure
    rw [check_deferred, PoolState.settle]
    simp only [if_pos rfl]
    rw [hp]
    simp
  · -- failure leaves the item in the processing list
    unfold PoolState.runFailure
    have hDlen : (PoolState.settle s it.token (DeferredState.rejectedD e)).processingList.length ≤
        (PoolState.settle s it.token (DeferredState.rejectedD e)).limit := h1
    rw [check_eq _ hDlen]
    exact List.mem_append.mpr (Or.inl hin)
  · -- failure still re-triggers admission: spare capacity admits the head
    intro w rest2 hw hcap
    unfold PoolState.runFailure
    have hDlen : (PoolState.settle s it.token (DeferredState.rejectedD e)).processingList.length ≤
        (PoolState.settle s it.token (DeferredState.rejectedD e)).limit := h1
    rw [check_eq _ hDlen]
    refine List.mem_append.mpr (Or.inr ?_)
    show w ∈ s.waitingList.take (s.limit - s.processingList.length)
    rw [hw]
    rcases Nat.exists_eq_add_of_le (by omega :
      1 ≤ s.limit - s.processingList.length) with ⟨m, hm⟩
    rw [show s.limit - s.processingList.length = m + 1 by omega]
    exact List.mem_cons_self w _

/-- C4 at a concrete reachable pool: one admitted item under limit 1; its
success resolves token 0 and empties the processing list, its failure rejects
token 0 and keeps the item in place. -/
theorem C4_pool_run_contract_witness :
    (poolOne.runSuccess ⟨0, 10⟩ none).deferred 0 = DeferredState.resolvedD none ∧
    (⟨0, 10⟩ : PoolItem) ∉ (poolOne.runSuccess ⟨0, 10⟩ none).processingList ∧
    (poolOne.runFailure ⟨0, 10⟩ err500).deferred 0 = DeferredState.rejectedD err500 ∧
    (⟨0, 10⟩ : PoolItem) ∈ (poolOne.runFailure ⟨0, 10⟩ err500).processingList := by
  have h := C4_pool_run_contract poolOne
    (PoolReachable.enqueue 10 (PoolReachable.init 1)) ⟨0, 10⟩
    (by decide) (by decide) rfl none err500
  exact ⟨h.1, h.2.1, h.2.2.2.1, h.2.2.2.2.1⟩

/-- C5 (counterexample): the supplied value 1/2 is fractional, passes the
`< 0 || > 5` range check unchanged, and so the effective limit is 1/2, which
does not lie in [1,5] and was not reset to 5. -/
theorem C5_fractional_limit_cex :
    effectiveParallelFileLimit (some (1/2)) = 1/2 ∧
    ¬(1 ≤ effectiveParallelFileLimit (some (1/2))) := by
  constructor <;> norm_num [effectiveParallelFileLimit]

/-- C5 (amended): the effective limit always lies in (0, 5]; absent, zero,
negative and oversized supplied values are silently reset to 5, while any
positive value up to 5 — fractional ones included — is kept as supplied. -/
theorem C5_limit_clamp (v : Option ℚ) (x : ℚ) :
    0 < effectiveParallelFileLimit v ∧
    effectiveParallelFileLimit v ≤ 5 ∧
    effectiveParallelFileLimit none = 5 ∧
    effectiveParallelFileLimit (some 0) = 5 ∧
    (x < 0 ∨ 5 < x → effectiveParallelFileLimit (some x) = 5) ∧
    (0 < x → x ≤ 5 → effectiveParallelFileLimit (some x) = x) := by
  have hmain : ∀ w : Option ℚ,
      0 < effectiveParallelFileLimit w ∧ effectiveParallelFileLimit w ≤ 5 := by
    intro w
    unfold effectiveParallelFileLimit
    rcases w with _ | y
    · norm_num
    · by_cases hy : y = 0
      · subst hy; norm_num
      · simp only [hy, if_false]
        by_cases hlt : y < 0 ∨ y > 5
        · rw [if_pos hlt]; norm_num
        · rw [if_neg hlt]
          push_neg at hlt
          exact ⟨lt_of_le_of_ne hlt.1 (Ne.symm hy), hlt.2⟩
  refine ⟨(hmain v).1, (hmain v).2, by norm_num [effectiveParallelFileLimit],
    by norm_num [effectiveParallelFileLimit], ?_, ?_⟩
  · intro hx
    unfold effectiveParallelFileLimit
    by_cases hx0 : x = 0
    · subst hx0
      rcases hx with hx | hx <;> norm_num at hx
    · simp only [hx0, if_false]
      rw [if_pos hx]
  · intro h0 h5
    unfold effectiveParallelFileLimit
    have hx0 : ¬ x = 0 := by intro hc; rw [hc] at h0; exact lt_irrefl 0 h0
    simp only [hx0, if_false]
    rw [if_neg]
    push_neg
    constructor <;> linarith

/-- C5 (witness): 1/2 gives a positive limit, 7 resets to 5, and 3 is kept. -/
theorem C5_limit_clamp_witness :
    0 < effectiveParallelFileLimit (some (1/2)) ∧
    effectiveParallelFileLimit (some 7) = 5 ∧
    effectiveParallelFileLimit (some 3) = 3 :=
  ⟨(C5_limit_clamp (some (1/2)) 0).1,
   (C5_limit_clamp (some 7) 7).2.2.2.2.1 (Or.inr (by norm_num)),
   (C5_limit_clamp (some 3) 3).2.2.2.2.2 (by norm_num) (by norm_num)⟩

/-- C6: `addFile` on a duplicate fingerprint signals code 110 (Error event
plus a thrown error) and leaves the whole state — fileQueue, waitQueue and
uploadPool included — unchanged; a non-duplicate file failing the type
predicate likewise signals code 111 without mutation. -/
theorem C6_addFile_validation (s : OrchState) (f : NewFile)
    (hdup : (s.fileQueue.find f.id).isSome = true)
    (s2 : OrchState) (f2 : NewFile)
    (hnodup : (s2.fileQueue.find f2.id).isSome = false)
    (hmime : f2.mimeOk = false) :
    s.addFile f = (s, [Event.errorEvt 110], AddFileOutcome.thrown) ∧
    s2.addFile f2 = (s2, [Event.errorEvt 111], AddFileOutcome.thrown) := by
  constructor
  · simp [OrchState.addFile, hdup]
  · simp [OrchState.addFile, hnodup, hmime]

/-- C6 at concrete states: re-adding fingerprint 5 next to a tracked file 5
gives code 110; adding an unacceptable type gives code 111. -/
theorem C6_addFile_validation_witness :
    plvWait5.addFile ⟨5, true, fd0⟩ =
      (plvWait5, [Event.errorEvt 110], AddFileOutcome.thrown) ∧
    plvIdle.addFile ⟨6, false, fd0⟩ =
      (plvIdle, [Event.errorEvt 111], AddFileOutcome.thrown) :=
  C6_addFile_validation plvWait5 ⟨5, true, fd0⟩ (by decide)
    plvIdle ⟨6, false, fd0⟩ (by decide) rfl

/-- C8 (counterexample): `updateFileData` called with a non-object partial on
a task that is not in waitQueue (an "other case" in the claim's terms) returns
silently: no FileLocked (112) event is emitted, contradicting the claim that
every non-permitted case signals code 112. -/
theorem C8_silent_nonobject_cex :
    (plvIdle.waitQueue.find 1).isNone = true ∧
    plvIdle.updateFileData 1 UpdArg.nonObject = (plvIdle, []) :=
  ⟨rfl, rfl⟩

/-- C8 (amended): for object partials the mutation is applied iff the task is
in waitQueue with the not-yet-started marker, and every other case signals
code 112 without mutation; a non-object partial is a silent no-op (the
`typeof` guard returns before any check or event). -/
theorem C8_updateFileData (s : OrchState) (id : Nat) (patch : FilePatch)
    (hfind : (s.waitQueue.find id).isNone = false)
    (hsc : s.statusCode id = 1)
    (s2 : OrchState) (id2 : Nat) (patch2 : FilePatch)
    (hbad : (s2.waitQueue.find id2).isNone = true ∨ s2.statusCode id2 ≠ 1) :
    s.updateFileData id (UpdArg.obj patch) =
      ({ s with
          fileDataMap :=
            updMap s.fileDataMap id (mergePatch patch (s.fileDataMap id)) },
        []) ∧
    s2.updateFileData id2 (UpdArg.obj patch2) = (s2, [Event.errorEvt 112]) ∧
    s.updateFileData id UpdArg.nonObject = (s, []) := by
  refine ⟨?_, ?_, rfl⟩
  · simp [OrchState.updateFileData, hfind, hsc]
  · rcases hbad with hb | hb <;> simp [OrchState.updateFileData, hb]

/-- C8 at concrete states: a permitted update merges the patch; an update for
an untracked task signals code 112. -/
theorem C8_updateFileData_witness :
    plvWait5.updateFileData 5 (UpdArg.obj ⟨some "b", none, none⟩) =
      ({ plvWait5 with
          fileDataMap :=
            updMap plvWait5.fileDataMap 5
              (mergePatch ⟨some "b", none, none⟩ (plvWait5.fileDataMap 5)) },
        []) ∧
    plvIdle.updateFileData 1 (UpdArg.obj ⟨some "b", none, none⟩) =
      (plvIdle, [Event.errorEvt 112]) := by
  have h := C8_updateFileData plvWait5 5 ⟨some "b", none, none⟩ (by decide) rfl
    plvIdle 1 ⟨some "b", none, none⟩ (Or.inl (by decide))
  exact ⟨h.1, h.2.1⟩

/-- C9: a settlement with status 102 reinserts the task at the front of
waitQueue (`unshift`, not an append) and emits exactly one Error event. -/
theorem C9_quota_priority_requeue (s : OrchState) (res : Res)
    (h : res.status = 102) :
    (s.handleUploadStatusChange res).1.waitQueue.list =
      res.uploader :: s.waitQueue.list ∧
    (s.handleUploadStatusChange res).2 = [Event.errorEvt 102] := by
  unfold OrchState.handleUploadStatusChange
  rw [h]
  norm_num [Queue.unshift]

/-- C9 at a concrete state: task 9 settles with 102 while task 5 waits; 9 is
reinserted at index 0 and one Error fires. -/
theorem C9_quota_priority_requeue_witness :
    (plvWait5.handleUploadStatusChange ⟨102, 9, 9⟩).1.waitQueue.list = [9, 5] ∧
    (plvWait5.handleUploadStatusChange ⟨102, 9, 9⟩).2 = [Event.errorEvt 102] :=
  C9_quota_priority_requeue plvWait5 ⟨102, 9, 9⟩ rfl

/-- C10: `removeFile` on a task that is not in the pool leaves its isDeleted
flag untouched and requests no stop — it only removes the id from waitQueue
and fileQueue, leaving the pool as it was; only a task found in the pool is
marked deleted and cooperatively stopped. -/
theorem C10_removeFile_frame (s : OrchState) (id : Nat)
    (habs : (s.uploadPool.remove id).2 = none)
    (s2 : OrchState) (id2 : Nat) (it2 : PoolItem)
    (hin : (s2.uploadPool.remove id2).2 = some it2) :
    (s.removeFile id).1.isDeleted id = s.isDeleted id ∧
    (s.removeFile id).2 = [] ∧
    (s.removeFile id).1.waitQueue = (s.waitQueue.remove id).1 ∧
    (s.removeFile id).1.fileQueue = (s.fileQueue.remove id).1 ∧
    (s.removeFile id).1.uploadPool = s.uploadPool ∧
    (s2.removeFile id2).1.isDeleted id2 = true ∧
    (s2.removeFile id2).2 = [Event.stopRequested id2] := by
  have hs : s.removeFile id =
      ({ s with
          waitQueue := (s.waitQueue.remove id).1
          fileQueue := (s.fileQueue.remove id).1 },
        []) := by
    unfold OrchState.removeFile
    rcases hE : s.uploadPool.remove id with ⟨p2, found⟩
    rw [hE] at habs
    simp only at habs
    subst habs
    rfl
  have hs2 : (s2.removeFile id2).1.isDeleted = updMap s2.isDeleted id2 true ∧
      (s2.removeFile id2).2 = [Event.stopRequested id2] := by
    unfold OrchState.removeFile
    rcases hE : s2.uploadPool.remove id2 with ⟨p2, found⟩
    rw [hE] at hin
    simp only at hin
    subst hin
    exact ⟨rfl, rfl⟩
  refine ⟨?_, ?_, ?_, ?_, ?_, ?_, hs2.2⟩
  · rw [hs]
  · rw [hs]
  · rw [hs]
  · rw [hs]
  · rw [hs]
  · rw [hs2.1]
    simp [updMap]

/-- C10 at concrete states: removing an untracked id from an idle
orchestrator touches no deletion flag and requests no stop; removing the
running task 7 marks it deleted and requests its stop. -/
theorem C10_removeFile_frame_witness :
    (plvIdle.removeFile 4).1.isDeleted 4 = plvIdle.isDeleted 4 ∧
    (plvIdle.removeFile 4).2 = [] ∧
    (plvRunning7.removeFile 7).1.isDeleted 7 = true ∧
    (plvRunning7.removeFile 7).2 = [Event.stopRequested 7] := by
  have h := C10_removeFile_frame plvIdle 4 rfl plvRunning7 7 ⟨0, 7⟩ rfl
  exact ⟨h.1, h.2.1, h.2.2.2.2.2.1, h.2.2.2.2.2.2⟩

/-- C2: evaluation at the failing inputs. Task 7 carries isDeleted = true,
yet the status dispatch re-admits it: a settlement with status 102 unshifts
it back into waitQueue, and a settlement with status 106 resubmits it into
the upload pool, where the admission check moves it straight into the
processing list. The 101/104/105 branch is the only one guarding on
isDeleted. -/
theorem C2_deleted_task_readmitted :
    plvDeleted7.isDeleted 7 = true ∧
    (plvDeleted7.handleUploadStatusChange ⟨102, 7, 7⟩).1.waitQueue.list = [7] ∧
    ((plvDeleted7.handleUploadStatusChange
        ⟨106, 7, 7⟩).1.uploadPool.processingList.map PoolItem.id) = [7] := by
  refine ⟨rfl, ?_, ?_⟩ <;> rfl

/-- C1 (counterexample): a snapshot whose single future rejects yields
exactly one Error event from its own catch scope, but the aggregate
continuation does not run — `Promise.all(...).then(...)` carries no rejection
handler, so a rejected future prevents the batch-completion continuation from
running, contrary to the claim. -/
theorem C1_aggregate_skipped_cex :
    (plvIdle.perFutureHandle (Outcome.rejected err500)).2 = [Event.errorEvt 500] ∧
    aggregateRuns [Outcome.rejected err500] = false :=
  ⟨rfl, rfl⟩

/-- C1 (amended): the rejection of a task's future produces exactly one Error
event for that task, caught at the future's own scope; the batch-completion
continuation, however, runs only when every future of the snapshot fulfills —
any rejection in the batch prevents that drain cycle's continuation (no
repeated drain, no mode reset, no completion notification from it). -/
theorem C1_run_failure_scoped (s : OrchState) (e : ErrData) (outs : List Outcome)
    (hmem : Outcome.rejected e ∈ outs) :
    (s.perFutureHandle (Outcome.rejected e)).2 = [Event.errorEvt e.code] ∧
    aggregateRuns outs = false ∧
    (∀ outs2 : List Outcome, (∀ o ∈ outs2, o.isFulfilled = true) →
      aggregateRuns outs2 = true) := by
  refine ⟨rfl, ?_, ?_⟩
  · have hne : ¬ (outs.all Outcome.isFulfilled = true) := by
      intro hall
      have := List.all_eq_true.mp hall _ hmem
      simp [Outcome.isFulfilled] at this
    exact Bool.eq_false_iff.mpr hne
  · intro outs2 hall
    exact List.all_eq_true.mpr hall

/-- C1 at a concrete batch: one fulfilled and one rejected future — exactly
one Error for the rejected one, and the continuation is skipped. -/
theorem C1_run_failure_scoped_witness :
    (plvWait5.perFutureHandle (Outcome.rejected err500)).2 =
      [Event.errorEvt 500] ∧
    aggregateRuns [Outcome.fulfilled none, Outcome.rejected err500] = false := by
  have h := C1_run_failure_scoped plvWait5 err500
    [Outcome.fulfilled none, Outcome.rejected err500] (by decide)
  exact ⟨h.1, h.2.1⟩

/-- C7: the batch-completion continuation fires UploadComplete exactly when
the drained snapshot left no new futures pending, the upload pool is empty,
waitQueue is empty and fileQueue is not; it emits at most one notification
per drain cycle; the mode is reset to NOT_STARTED whenever the pool is empty
at that point; a cycle that fires does not repeat the drain, and a cycle that
repeats the drain (new futures arrived) fires nothing. -/
theorem C7_completion_watch (s : OrchState) :
    (Event.uploadComplete ∈ (s.promiseAllThen).2.1 ↔
      (s.newUploadPromiseList = [] ∧ s.uploadPool.size = 0 ∧
        s.waitQueue.size = 0 ∧ s.fileQueue.size ≠ 0)) ∧
    (s.promiseAllThen).2.1.count Event.uploadComplete ≤ 1 ∧
    (s.newUploadPromiseList = [] → s.uploadPool.size = 0 →
      (s.promiseAllThen).1.status = UploadStatus.notStarted) ∧
    (Event.uploadComplete ∈ (s.promiseAllThen).2.1 →
      (s.promiseAllThen).2.2 = false) ∧
    (s.newUploadPromiseList ≠ [] →
      (s.promiseAllThen).2.1 = [] ∧ (s.promiseAllThen).2.2 = true) := by
  unfold OrchState.promiseAllThen
  rcases hn : s.newUploadPromiseList with _ | ⟨a, t⟩
  · simp only [List.length_nil, gt_iff_lt, lt_irrefl, if_false]
    by_cases hpool : s.uploadPool.size = 0
    · rw [if_pos hpool]
      by_cases hq : s.waitQueue.size = 0 ∧ s.fileQueue.size ≠ 0
      · rw [if_pos hq]
        simp [hq, hpool]
      · rw [if_neg hq]
        simp only [List.mem_nil_iff, List.count_nil]
        refine ⟨?_, by omega, fun _ _ => by trivial, fun hc => absurd hc (by simp), ?_⟩
        · constructor
          · intro hc; cases hc
          · rintro ⟨-, -, hq1, hq2⟩; exact absurd ⟨hq1, hq2⟩ hq
        · intro hne; exact absurd rfl hne
    · rw [if_neg hpool]
      simp only [List.mem_nil_iff, List.count_nil]
      refine ⟨?_, by omega, ?_, fun hc => absurd hc (by simp), ?_⟩
      · constructor
        · intro hc; cases hc
        · rintro ⟨-, hp0, -, -⟩; exact absurd hp0 hpool
      · intro _ hp0; exact absurd hp0 hpool
      · intro hne; exact absurd rfl hne
  · simp only [List.length_cons, gt_iff_lt, Nat.succ_pos, if_true]
    refine ⟨?_, by simp, ?_, ?_, fun _ => ⟨by trivial, by trivial⟩⟩
    · constructor
      · intro hc; cases hc
      · rintro ⟨hnil, -, -, -⟩; cases hnil
    · intro hnil; cases hnil
    · intro hc; cases hc

/-- C7 at a concrete fully-drained state: pool empty, waitQueue empty, one
tracked file — UploadComplete fires and the mode resets. -/
theorem C7_completion_watch_witness :
    Event.uploadComplete ∈ (plvDone.promiseAllThen).2.1 ∧
    (plvDone.promiseAllThen).1.status = UploadStatus.notStarted := by
  have h := C7_completion_watch plvDone
  exact ⟨h.1.mpr ⟨rfl, rfl, rfl, by decide⟩, h.2.2.1 rfl rfl⟩

end Polyv
